import Mathlib

/-! Relationship graph resolver of `sq` (model/spdx.go)

A shallow embedding of the document loader (`SPDX.Load`) and of the hierarchy
walk (`removeDuplicateStr`, `getdependson`, `getspdxpkg`, `getspdxfile`,
`PrintDigRels`) together with theorems about them.

Conventions of the embedding:

* every `fmt.Println` call of the source contributes one element to the list of
  lines that the embedded function returns, in the order of the calls;
* Go `int` counters are natural numbers: they start at `0`, are only
  incremented, and are bounded by the lengths of the slices being scanned;
* a Go `error` value is an `Option`: `none` is `nil`;
* the colour helpers `blue`, `yellow`, `green`, `red` are package variables
  declared outside `model/spdx.go`; they are taken as a parameter (`Style`).
-/

set_option autoImplicit false
set_option linter.unusedVariables false

namespace Sq

/-! ## Data model (only the fields read by the embedded functions) -/

/-- The `Packages` record: identifier, name, version and inline file list. -/
structure Packages where
  Spdxid : String
  Name : String
  VersionInfo : String
  HasFiles : List String
  deriving DecidableEq, Repr, Inhabited

/-- The `Files` record: identifier and file name. -/
structure Files where
  Spdxid : String
  FileName : String
  deriving DecidableEq, Repr, Inhabited

/-- The `Relationships` record: source, target and type tag. -/
structure Relationships where
  SpdxElementID : String
  RelatedSpdxElement : String
  RelationshipType : String
  deriving DecidableEq, Repr, Inhabited

/-- The `SPDX` document: the three flat collections. -/
structure SPDX where
  Packages : List Packages
  Files : List Files
  Relationships : List Relationships
  deriving DecidableEq, Repr, Inhabited

/-- The colour helpers used by the printing code, each a function on text. -/
structure Style where
  blue : String → String
  yellow : String → String
  green : String → String
  red : String → String

/-- The colour helpers with colouring switched off: every helper returns its text. -/
def Style.plain : Style := ⟨id, id, id, id⟩

/-! ## `SPDX.Load` -/

/-- An error value of the file system: its message and whether it is `os.ErrNotExist`. -/
structure IOError where
  msg : String
  isNotExist : Bool
  deriving DecidableEq, Repr

/-- The errors `Load` can return: the one of `ioutil.ReadFile` or the one of `json.Unmarshal`. -/
inductive LoadError where
  | read (e : IOError)
  | json (msg : String)
  deriving DecidableEq, Repr

/-- The body of `SPDX.Load`. `readFile` stands for `ioutil.ReadFile` (the bytes and the
error it returns) and `unmarshal` for `json.Unmarshal` (the document it leaves behind and
the error it returns). The result is the document after the call and the returned error. -/
def Load (readFile : String → List Nat × Option IOError)
    (unmarshal : List Nat → SPDX → SPDX × Option String)
    (t : SPDX) (filename : String) : SPDX × Option LoadError :=
  let (file, err) := readFile filename
  match err with
  | some e =>
    if e.isNotExist then (t, none)
    else (t, some (LoadError.read e))
  | none =>
    if file.length = 0 then
      -- `return err`: the variable `err` of the read, which is `nil` on this path
      (t, err.map LoadError.read)
    else
      match unmarshal file t with
      | (t', some m) => (t', some (LoadError.json m))
      | (t', none) => (t', none)

/-- A file system with one present, zero-length resource `empty.json` and nothing else. -/
def emptyResourceFS (filename : String) : List Nat × Option IOError :=
  if filename = "empty.json" then ([], none)
  else ([], some ⟨"open " ++ filename ++ ": no such file or directory", true⟩)

/-- A stand-in for `json.Unmarshal` that rejects every input with the message the library
gives for zero bytes, and leaves the document as it is. -/
def rejectingUnmarshal (file : List Nat) (t : SPDX) : SPDX × Option String :=
  (t, some "unexpected end of JSON input")

/-! ## `removeDuplicateStr` -/

/-- The loop of `removeDuplicateStr`: `allKeys` is the set of keys of the map, `list` the
slice built so far. -/
def removeDuplicateStrLoop : List String → List String → List String → List String
  | _, list, [] => list
  | allKeys, list, item :: rest =>
    if item ∈ allKeys then removeDuplicateStrLoop allKeys list rest
    else removeDuplicateStrLoop (item :: allKeys) (list ++ [item]) rest

/-- The function `removeDuplicateStr`. -/
def removeDuplicateStr (strSlice : List String) : List String :=
  removeDuplicateStrLoop [] [] strSlice

/-! ## Line formats -/

/-- The text `fmt.Sprintf("%v | version: %v", yellow(pkg.Name), yellow(pkg.VersionInfo))`
of `getspdxpkg`. -/
def pkgDetail (st : Style) (pkg : Packages) : String :=
  st.yellow pkg.Name ++ " | version: " ++ st.yellow pkg.VersionInfo

/-- The text `fmt.Sprintf("%v %v version: %v", blue(pkg.Name), yellow("|"), blue(pkg.VersionInfo))`
of `getdependson`. -/
def depDetail (st : Style) (pkg : Packages) : String :=
  st.blue pkg.Name ++ " " ++ st.yellow "|" ++ " version: " ++ st.blue pkg.VersionInfo

/-- The containment line printed by `getspdxfile` for label `i` and file name `fileName`. -/
def containsLine (st : Style) (SPDXidDetail : String) (i : Nat) (fileName : String) : String :=
  st.green (SPDXidDetail ++ " " ++ st.yellow "---->" ++ " " ++ st.red "CONTAINS" ++ " File "
    ++ st.blue (toString i) ++ " " ++ st.yellow "---->" ++ " " ++ st.red fileName)

/-- The "depends on" line printed by `getdependson` for label `d`. -/
def dependsLine (st : Style) (SPDXidDetail : String) (d : Nat) (nextSPDXidDetail : String) :
    String :=
  SPDXidDetail ++ " =====> " ++ st.green "DEPENDS_ON" ++ " Pkg " ++ st.blue (toString d)
    ++ " =====> " ++ nextSPDXidDetail

/-- The line `fmt.Println("No. of unique spdxID :", n)`. -/
def countLine (n : Nat) : String :=
  "No. of unique spdxID : " ++ toString n

/-- The header line of the DESCRIBES pass. -/
def describesHeader (st : Style) : String :=
  st.red "===================DESCRIBES======================"

/-- The header line of the DEPENDS_ON pass. -/
def dependsHeader (st : Style) : String :=
  st.red "===================DEPENDS_ON======================"

/-! ## The hierarchy walk -/

/-- The loop of `getspdxfile` over the files: every file whose identifier is `spdxID`
increments `i` and prints one line. -/
def getspdxfileLoop (st : Style) (spdxID : String) (SPDXidDetail : String) :
    Nat → List Files → List String
  | _, [] => []
  | i, file :: files =>
    if file.Spdxid = spdxID then
      containsLine st SPDXidDetail (i + 1) file.FileName
        :: getspdxfileLoop st spdxID SPDXidDetail (i + 1) files
    else getspdxfileLoop st spdxID SPDXidDetail i files

/-- The method `getspdxfile`. -/
def getspdxfile (st : Style) (s : SPDX) (i : Nat) (spdxID : String) (SPDXidDetail : String) :
    List String :=
  getspdxfileLoop st spdxID SPDXidDetail i s.Files

/-- The loop `for i, filespdx := range filespdxids` of `getspdxpkg`. -/
def hasFilesLoop (st : Style) (s : SPDX) (SPDXidDetail : String) :
    Nat → List String → List String
  | _, [] => []
  | i, filespdx :: rest =>
    getspdxfile st s i filespdx SPDXidDetail ++ hasFilesLoop st s SPDXidDetail (i + 1) rest

/-- The loop `for _, rel1 := range s.Relationships` of `getspdxpkg`; the counter `f` is
declared, never assigned, and passed to `getspdxfile`. -/
def containsLoop (st : Style) (s : SPDX) (spdxID : String) (SPDXidDetail : String) (f : Nat) :
    List Relationships → List String
  | [] => []
  | rel1 :: rest =>
    (if rel1.SpdxElementID = spdxID then
      (if rel1.RelationshipType = "CONTAINS" then
        getspdxfile st s f rel1.RelatedSpdxElement SPDXidDetail
      else [])
    else [])
    ++ containsLoop st s spdxID SPDXidDetail f rest

/-- The body of the package loop of `getspdxpkg` for a package whose identifier matched. -/
def expandPkg (st : Style) (s : SPDX) (spdxID : String) (pkg : Packages) : List String :=
  let SPDXidDetail := pkgDetail st pkg
  if pkg.HasFiles.length > 0 then
    hasFilesLoop st s SPDXidDetail 0 pkg.HasFiles
  else
    containsLoop st s spdxID SPDXidDetail 0 s.Relationships

/-- The loop `for _, pkg := range pkgs` of `getspdxpkg`. -/
def getspdxpkgLoop (st : Style) (s : SPDX) (spdxID : String) : List Packages → List String
  | [] => []
  | pkg :: pkgs =>
    (if pkg.Spdxid = spdxID then expandPkg st s spdxID pkg else [])
    ++ getspdxpkgLoop st s spdxID pkgs

/-- The method `getspdxpkg`; its parameters `d` and `rel1` are not read by the body. -/
def getspdxpkg (st : Style) (s : SPDX) (d : Nat) (spdxID : String) (rel1 : Relationships) :
    List String :=
  getspdxpkgLoop st s spdxID s.Packages

/-- The loop of `getdependson`: the pair is (`SPDXidDetail`, `nextSPDXidDetail`). -/
def getdependsonLoop (st : Style) (rel1 : Relationships) :
    String × String → List Packages → String × String
  | acc, [] => acc
  | (SPDXidDetail, nextSPDXidDetail), pkg :: pkgs =>
    let SPDXidDetail :=
      if pkg.Spdxid = rel1.SpdxElementID then depDetail st pkg else SPDXidDetail
    let nextSPDXidDetail :=
      if pkg.Spdxid = rel1.RelatedSpdxElement then depDetail st pkg else nextSPDXidDetail
    getdependsonLoop st rel1 (SPDXidDetail, nextSPDXidDetail) pkgs

/-- The method `getdependson`: one printed line. -/
def getdependson (st : Style) (s : SPDX) (d : Nat) (rel1 : Relationships) : List String :=
  let r := getdependsonLoop st rel1 ("", "") s.Packages
  [dependsLine st r.1 d r.2]

/-- The slice `spdxids` of `PrintDigRels`: `make([]string, lenrels)` followed by one
`append` per relationship. -/
def spdxidsOf (rels : List Relationships) : List String :=
  rels.foldl (fun spdxids rel => spdxids ++ [rel.SpdxElementID]) (List.replicate rels.length "")

/-- The number printed on the first line of `PrintDigRels`. -/
def uniqueCount (s : SPDX) : Nat :=
  (removeDuplicateStr (spdxidsOf s.Relationships)).length

/-- The DESCRIBES loop of `PrintDigRels`: the lines printed and the final value of `d`. -/
def describesLoop (st : Style) (s : SPDX) : Nat → List Relationships → List String × Nat
  | d, [] => ([], d)
  | d, rel1 :: rest =>
    if rel1.RelationshipType = "DESCRIBES" then
      let out := getspdxpkg st s (d + 1) rel1.RelatedSpdxElement rel1
      let r := describesLoop st s (d + 1) rest
      (out ++ r.1, r.2)
    else describesLoop st s d rest

/-- The DEPENDS_ON loop of `PrintDigRels`: the lines printed and the final value of `d`. -/
def dependsLoop (st : Style) (s : SPDX) : Nat → List Relationships → List String × Nat
  | d, [] => ([], d)
  | d, rel1 :: rest =>
    if rel1.RelationshipType = "DEPENDS_ON" then
      let out := getdependson st s (d + 1) rel1
        ++ getspdxpkg st s (d + 1) rel1.RelatedSpdxElement rel1
      let r := dependsLoop st s (d + 1) rest
      (out ++ r.1, r.2)
    else dependsLoop st s d rest

/-- The lines of the DESCRIBES pass of `PrintDigRels` (after its header). -/
def describesPass (st : Style) (s : SPDX) : List String :=
  (describesLoop st s 0 s.Relationships).1

/-- The lines of the DEPENDS_ON pass of `PrintDigRels` (after its header, `d` reset to 0). -/
def dependsPass (st : Style) (s : SPDX) : List String :=
  (dependsLoop st s 0 s.Relationships).1

/-- The method `PrintDigRels`: all lines it prints, in order. -/
def PrintDigRels (st : Style) (s : SPDX) : List String :=
  [countLine (uniqueCount s)] ++ [describesHeader st] ++ describesPass st s
    ++ [dependsHeader st] ++ dependsPass st s

/-! ## Example documents -/

/-- Scenario 1: package `pkgA` lists file `F1` inline. -/
def scenario1 : SPDX :=
  { Packages := [⟨"P1", "pkgA", "", ["F1"]⟩]
    Files := [⟨"F1", "a.txt"⟩]
    Relationships := [⟨"DOC", "P1", "DESCRIBES"⟩] }

/-- Two packages share the identifier `P1`: the first lists `F1` inline, the second has no
inline list; one CONTAINS relationship leads from `P1` to `F2`. File identifiers are unique. -/
def dupPkgDoc : SPDX :=
  { Packages := [⟨"P1", "pkgA", "1.0", ["F1"]⟩, ⟨"P1", "pkgB", "2.0", []⟩]
    Files := [⟨"F1", "a.txt"⟩, ⟨"F2", "b.txt"⟩]
    Relationships := [⟨"P1", "F2", "CONTAINS"⟩] }

/-- Package `pkgA` owns `F1` and `F2` through its inline list. -/
def twoFilesInline : SPDX :=
  { Packages := [⟨"P1", "pkgA", "1.0", ["F1", "F2"]⟩]
    Files := [⟨"F1", "a.txt"⟩, ⟨"F2", "b.txt"⟩]
    Relationships := [⟨"DOC", "P1", "DESCRIBES"⟩] }

/-- Package `pkgA` owns `F1` and `F2` through CONTAINS relationships, in the same order. -/
def twoFilesByRel : SPDX :=
  { Packages := [⟨"P1", "pkgA", "1.0", []⟩]
    Files := [⟨"F1", "a.txt"⟩, ⟨"F2", "b.txt"⟩]
    Relationships := [⟨"DOC", "P1", "DESCRIBES"⟩, ⟨"P1", "F1", "CONTAINS"⟩,
      ⟨"P1", "F2", "CONTAINS"⟩] }

/-- Scenario 2: package `pkgA` owns `F1` through a CONTAINS relationship. -/
def scenario2 : SPDX :=
  { Packages := [⟨"P1", "pkgA", "", []⟩]
    Files := [⟨"F1", "a.txt"⟩]
    Relationships := [⟨"DOC", "P1", "DESCRIBES"⟩, ⟨"P1", "F1", "CONTAINS"⟩] }

/-- A described package that owns no file. -/
def noFilesDoc : SPDX :=
  { Packages := [⟨"P1", "pkgA", "1.0", []⟩]
    Files := []
    Relationships := [⟨"DOC", "P1", "DESCRIBES"⟩] }

/-- Two packages share the identifier `P1` and two files share the identifier `F1`. -/
def dupIdsDoc : SPDX :=
  { Packages := [⟨"P1", "pkgA", "1.0", ["F1"]⟩, ⟨"P1", "pkgB", "2.0", ["F1"]⟩]
    Files := [⟨"F1", "a.txt"⟩, ⟨"F1", "b.txt"⟩]
    Relationships := [⟨"P1", "P1", "DEPENDS_ON"⟩] }

/-- A document without packages, files and relationships. -/
def emptyDoc : SPDX :=
  { Packages := [], Files := [], Relationships := [] }

/-- Package `pkgA` depends on `P9`, which is no package, and then on `pkgB`. -/
def danglingDepDoc : SPDX :=
  { Packages := [⟨"P1", "pkgA", "1.0", []⟩, ⟨"P2", "pkgB", "2.0", ["F1"]⟩]
    Files := [⟨"F1", "a.txt"⟩]
    Relationships := [⟨"P1", "P9", "DEPENDS_ON"⟩, ⟨"P1", "P2", "DEPENDS_ON"⟩] }

/-- Scenario 1 with the DESCRIBES relationship stated twice. -/
def describedTwiceDoc : SPDX :=
  { Packages := [⟨"P1", "pkgA", "", ["F1"]⟩]
    Files := [⟨"F1", "a.txt"⟩]
    Relationships := [⟨"DOC", "P1", "DESCRIBES"⟩, ⟨"DOC", "P1", "DESCRIBES"⟩] }

/-! ## Specification-side definitions -/

/-- The file an identifier resolves to: the first file, in scan order, carrying it. -/
def resolveFile (s : SPDX) (spdxID : String) : Option Files :=
  s.Files.find? (fun f => f.Spdxid = spdxID)

/-- The containment lines of package `P` as the specification words them: one line per
resolvable entry of the inline list when that list is non-empty, otherwise one line per
resolvable target of a CONTAINS relationship whose source is `P`. -/
def containmentLines (st : Style) (s : SPDX) (P : Packages) : List String :=
  if P.HasFiles ≠ [] then
    (P.HasFiles.enumFrom 0).filterMap (fun p =>
      (resolveFile s p.2).map (fun f => containsLine st (pkgDetail st P) (p.1 + 1) f.FileName))
  else
    ((s.Relationships.filter (fun r =>
        r.RelationshipType = "CONTAINS" ∧ r.SpdxElementID = P.Spdxid)).filterMap
      (fun r => resolveFile s r.RelatedSpdxElement)).map
      (fun f => containsLine st (pkgDetail st P) 1 f.FileName)

/-- The last package, in scan order, that carries the identifier. -/
def lastPackage (s : SPDX) (spdxID : String) : Option Packages :=
  s.Packages.reverse.find? (fun p => p.Spdxid = spdxID)

/-- The text a "depends on" line shows for an endpoint: name and version of the last package
carrying the identifier, and the empty string when no package carries it. -/
def endpointDetail (st : Style) (s : SPDX) (spdxID : String) : String :=
  match lastPackage s spdxID with
  | some p => depDetail st p
  | none => ""

/-- The list `xs` with every non-first occurrence deleted: the entry at position `i` is kept
exactly when it does not occur among the `i` entries before it. -/
def deleteNonFirst (xs : List String) : List String :=
  ((xs.enumFrom 0).filter (fun p => p.2 ∉ xs.take p.1)).map Prod.snd

/-- Package `pkgA` is described by the document and is also a dependency of `pkgB`. -/
def bothPassesDoc : SPDX :=
  { Packages := [⟨"P1", "pkgA", "1.0", ["F1"]⟩, ⟨"P2", "pkgB", "2.0", []⟩]
    Files := [⟨"F1", "a.txt"⟩]
    Relationships := [⟨"DOC", "P1", "DESCRIBES"⟩, ⟨"P2", "P1", "DEPENDS_ON"⟩] }

/-! ## Lemmas on the loops -/

theorem getspdxfileLoop_eq_filter (st : Style) (spdxID detail : String) (i : Nat)
    (files : List Files) :
    getspdxfileLoop st spdxID detail i files
      = ((files.filter (fun f => f.Spdxid = spdxID)).enumFrom (i + 1)).map
          (fun p => containsLine st detail p.1 p.2.FileName) := by
  induction files generalizing i with
  | nil => simp [getspdxfileLoop]
  | cons file files ih =>
    by_cases h : file.Spdxid = spdxID
    · simp [getspdxfileLoop, h, ih]
    · simp [getspdxfileLoop, h, ih]

theorem filter_eq_find_of_nodup {α β : Type} [DecidableEq β] (f : α → β) (b : β) :
    ∀ l : List α, (l.map f).Nodup →
      l.filter (fun x => f x = b) = (l.find? (fun x => f x = b)).toList
  | [], _ => by simp
  | a :: l, h => by
    have hn : (l.map f).Nodup := (List.nodup_cons.mp (by simpa using h)).2
    have ha : f a ∉ l.map f := (List.nodup_cons.mp (by simpa using h)).1
    by_cases hab : f a = b
    · have hnone : l.filter (fun x => f x = b) = [] := by
        rw [List.filter_eq_nil_iff]
        intro x hx hxb
        apply ha
        rw [hab]
        exact List.mem_map.mpr ⟨x, hx, by simpa using hxb⟩
      simp [List.filter_cons, List.find?_cons, hab, hnone]
    · simp [List.filter_cons, List.find?_cons, hab, filter_eq_find_of_nodup f b l hn]

theorem find_eq_some_of_nodup_mem {α β : Type} [DecidableEq β] (f : α → β) (P : α) :
    ∀ l : List α, (l.map f).Nodup → P ∈ l → l.find? (fun x => f x = f P) = some P
  | [], _, hP => by simp at hP
  | a :: l, h, hP => by
    have hn : (l.map f).Nodup := (List.nodup_cons.mp (by simpa using h)).2
    have ha : f a ∉ l.map f := (List.nodup_cons.mp (by simpa using h)).1
    rcases List.mem_cons.mp hP with rfl | hP
    · simp [List.find?_cons]
    · have hne : f a ≠ f P := fun e => ha (e ▸ List.mem_map.mpr ⟨P, hP, rfl⟩)
      simp [List.find?_cons, hne, find_eq_some_of_nodup_mem f P l hn hP]

theorem getspdxfile_eq_resolve (st : Style) (s : SPDX) (i : Nat) (spdxID detail : String)
    (hF : (s.Files.map Files.Spdxid).Nodup) :
    getspdxfile st s i spdxID detail
      = ((resolveFile s spdxID).map
          (fun f => containsLine st detail (i + 1) f.FileName)).toList := by
  unfold getspdxfile resolveFile
  rw [getspdxfileLoop_eq_filter, filter_eq_find_of_nodup Files.Spdxid spdxID s.Files hF]
  cases s.Files.find? (fun x => decide (x.Spdxid = spdxID)) <;> simp

theorem getspdxpkgLoop_eq_flatMap (st : Style) (s : SPDX) (spdxID : String)
    (pkgs : List Packages) :
    getspdxpkgLoop st s spdxID pkgs
      = (pkgs.filter (fun p => p.Spdxid = spdxID)).flatMap (expandPkg st s spdxID) := by
  induction pkgs with
  | nil => simp [getspdxpkgLoop]
  | cons pkg pkgs ih =>
    by_cases h : pkg.Spdxid = spdxID
    · simp [getspdxpkgLoop, h, ih]
    · simp [getspdxpkgLoop, h, ih]

theorem hasFilesLoop_eq (st : Style) (s : SPDX) (detail : String)
    (hF : (s.Files.map Files.Spdxid).Nodup) (i : Nat) (ids : List String) :
    hasFilesLoop st s detail i ids
      = (ids.enumFrom i).filterMap (fun p =>
          (resolveFile s p.2).map (fun f => containsLine st detail (p.1 + 1) f.FileName)) := by
  induction ids generalizing i with
  | nil => simp [hasFilesLoop]
  | cons a ids ih =>
    simp only [hasFilesLoop, List.enumFrom_cons, List.filterMap_cons, ih,
      getspdxfile_eq_resolve st s i a detail hF]
    cases resolveFile s a <;> simp

theorem containsLoop_eq (st : Style) (s : SPDX) (spdxID detail : String)
    (hF : (s.Files.map Files.Spdxid).Nodup) (f : Nat) (rels : List Relationships) :
    containsLoop st s spdxID detail f rels
      = ((rels.filter (fun r =>
            r.RelationshipType = "CONTAINS" ∧ r.SpdxElementID = spdxID)).filterMap
          (fun r => resolveFile s r.RelatedSpdxElement)).map
          (fun x => containsLine st detail (f + 1) x.FileName) := by
  induction rels with
  | nil => simp [containsLoop]
  | cons r rels ih =>
    by_cases h1 : r.SpdxElementID = spdxID <;> by_cases h2 : r.RelationshipType = "CONTAINS"
    · simp only [containsLoop, h1, h2, ih, if_true,
        getspdxfile_eq_resolve st s f r.RelatedSpdxElement detail hF]
      cases hr : resolveFile s r.RelatedSpdxElement <;>
        simp [List.filter_cons, h1, h2, hr]
    · simp [containsLoop, List.filter_cons, h1, h2, ih]
    · simp [containsLoop, List.filter_cons, h1, h2, ih]
    · simp [containsLoop, List.filter_cons, h1, h2, ih]

theorem expandPkg_eq_containmentLines (st : Style) (s : SPDX) (P : Packages)
    (hF : (s.Files.map Files.Spdxid).Nodup) :
    expandPkg st s P.Spdxid P = containmentLines st s P := by
  unfold expandPkg containmentLines
  by_cases h : P.HasFiles = []
  · simp [h, containsLoop_eq st s P.Spdxid (pkgDetail st P) hF]
  · have hpos : P.HasFiles.length > 0 := List.length_pos.mpr h
    simp [h, hpos, hasFilesLoop_eq st s (pkgDetail st P) hF]

theorem getspdxpkg_eq_containmentLines (st : Style) (s : SPDX) (P : Packages) (d : Nat)
    (rel1 : Relationships) (hP : P ∈ s.Packages)
    (hU : (s.Packages.map Packages.Spdxid).Nodup)
    (hF : (s.Files.map Files.Spdxid).Nodup) :
    getspdxpkg st s d P.Spdxid rel1 = containmentLines st s P := by
  unfold getspdxpkg
  rw [getspdxpkgLoop_eq_flatMap, filter_eq_find_of_nodup Packages.Spdxid P.Spdxid s.Packages hU,
    find_eq_some_of_nodup_mem Packages.Spdxid P s.Packages hU hP]
  simp [expandPkg_eq_containmentLines st s P hF]

theorem getspdxfileLoop_lines (st : Style) (spdxID detail : String) (i : Nat)
    (files : List Files) :
    ∀ line ∈ getspdxfileLoop st spdxID detail i files,
      ∃ f ∈ files, ∃ k, f.Spdxid = spdxID ∧ line = containsLine st detail k f.FileName := by
  induction files generalizing i with
  | nil => simp [getspdxfileLoop]
  | cons file files ih =>
    intro line hl
    by_cases h : file.Spdxid = spdxID
    · simp only [getspdxfileLoop, h, if_true, List.mem_cons] at hl
      rcases hl with rfl | hl
      · exact ⟨file, List.mem_cons_self _ _, i + 1, h, rfl⟩
      · obtain ⟨f, hf, k, hk⟩ := ih (i + 1) line hl
        exact ⟨f, List.mem_cons_of_mem _ hf, k, hk⟩
    · simp only [getspdxfileLoop, h, if_false] at hl
      obtain ⟨f, hf, k, hk⟩ := ih i line hl
      exact ⟨f, List.mem_cons_of_mem _ hf, k, hk⟩

theorem hasFilesLoop_lines (st : Style) (s : SPDX) (detail : String) (i : Nat)
    (ids : List String) :
    ∀ line ∈ hasFilesLoop st s detail i ids,
      ∃ f ∈ s.Files, ∃ k, line = containsLine st detail k f.FileName := by
  induction ids generalizing i with
  | nil => simp [hasFilesLoop]
  | cons a ids ih =>
    intro line hl
    simp only [hasFilesLoop, List.mem_append] at hl
    rcases hl with hl | hl
    · obtain ⟨f, hf, k, _, hk⟩ := getspdxfileLoop_lines st a detail i s.Files line hl
      exact ⟨f, hf, k, hk⟩
    · exact ih (i + 1) line hl

theorem containsLoop_lines (st : Style) (s : SPDX) (spdxID detail : String) (f : Nat)
    (rels : List Relationships) :
    ∀ line ∈ containsLoop st s spdxID detail f rels,
      ∃ x ∈ s.Files, ∃ k, line = containsLine st detail k x.FileName := by
  induction rels with
  | nil => simp [containsLoop]
  | cons r rels ih =>
    intro line hl
    simp only [containsLoop, List.mem_append] at hl
    rcases hl with hl | hl
    · split at hl
      · split at hl
        · obtain ⟨x, hx, k, _, hk⟩ :=
            getspdxfileLoop_lines st r.RelatedSpdxElement detail f s.Files line hl
          exact ⟨x, hx, k, hk⟩
        · simp at hl
      · simp at hl
    · exact ih line hl

theorem expandPkg_lines (st : Style) (s : SPDX) (spdxID : String) (P : Packages) :
    ∀ line ∈ expandPkg st s spdxID P,
      ∃ f ∈ s.Files, ∃ k, line = containsLine st (pkgDetail st P) k f.FileName := by
  intro line hl
  unfold expandPkg at hl
  split at hl
  · exact hasFilesLoop_lines st s _ 0 _ line hl
  · exact containsLoop_lines st s spdxID _ 0 _ line hl

theorem getspdxpkgLoop_lines (st : Style) (s : SPDX) (spdxID : String)
    (pkgs : List Packages) :
    ∀ line ∈ getspdxpkgLoop st s spdxID pkgs,
      ∃ P ∈ pkgs, P.Spdxid = spdxID ∧
        ∃ f ∈ s.Files, ∃ k, line = containsLine st (pkgDetail st P) k f.FileName := by
  induction pkgs with
  | nil => simp [getspdxpkgLoop]
  | cons pkg pkgs ih =>
    intro line hl
    simp only [getspdxpkgLoop, List.mem_append] at hl
    rcases hl with hl | hl
    · split at hl
      · next h => exact ⟨pkg, List.mem_cons_self _ _, h, expandPkg_lines st s spdxID pkg line hl⟩
      · simp at hl
    · obtain ⟨P, hP, h⟩ := ih line hl
      exact ⟨P, List.mem_cons_of_mem _ hP, h⟩

theorem getspdxpkgLoop_absent (st : Style) (s : SPDX) (spdxID : String)
    (pkgs : List Packages) (h : ∀ p ∈ pkgs, p.Spdxid ≠ spdxID) :
    getspdxpkgLoop st s spdxID pkgs = [] := by
  rw [getspdxpkgLoop_eq_flatMap]
  have : pkgs.filter (fun p => p.Spdxid = spdxID) = [] := by
    rw [List.filter_eq_nil_iff]
    intro p hp
    simpa using h p hp
  simp [this]

theorem getdependsonLoop_eq (st : Style) (rel1 : Relationships) (pkgs : List Packages)
    (a b : String) :
    getdependsonLoop st rel1 (a, b) pkgs
      = (((pkgs.reverse.find? (fun p => p.Spdxid = rel1.SpdxElementID)).map
            (depDetail st)).getD a,
         ((pkgs.reverse.find? (fun p => p.Spdxid = rel1.RelatedSpdxElement)).map
            (depDetail st)).getD b) := by
  induction pkgs generalizing a b with
  | nil => simp [getdependsonLoop]
  | cons pkg pkgs ih =>
    simp only [getdependsonLoop, ih, List.reverse_cons, List.find?_append]
    congr 1
    · cases pkgs.reverse.find? (fun p => decide (p.Spdxid = rel1.SpdxElementID)) <;>
        by_cases h : pkg.Spdxid = rel1.SpdxElementID <;> simp [List.find?_cons, h]
    · cases pkgs.reverse.find? (fun p => decide (p.Spdxid = rel1.RelatedSpdxElement)) <;>
        by_cases h : pkg.Spdxid = rel1.RelatedSpdxElement <;> simp [List.find?_cons, h]

theorem getdependson_eq (st : Style) (s : SPDX) (d : Nat) (rel1 : Relationships) :
    getdependson st s d rel1
      = [dependsLine st (endpointDetail st s rel1.SpdxElementID) d
          (endpointDetail st s rel1.RelatedSpdxElement)] := by
  unfold getdependson endpointDetail lastPackage
  rw [getdependsonLoop_eq]
  cases s.Packages.reverse.find? (fun p => decide (p.Spdxid = rel1.SpdxElementID)) <;>
    cases s.Packages.reverse.find? (fun p => decide (p.Spdxid = rel1.RelatedSpdxElement)) <;>
    simp

theorem endpointDetail_absent (st : Style) (s : SPDX) (spdxID : String)
    (h : ∀ p ∈ s.Packages, p.Spdxid ≠ spdxID) : endpointDetail st s spdxID = "" := by
  unfold endpointDetail lastPackage
  have : s.Packages.reverse.find? (fun p => decide (p.Spdxid = spdxID)) = none := by
    rw [List.find?_eq_none]
    intro p hp
    simpa using h p (List.mem_reverse.mp hp)
  simp [this]

theorem describesLoop_append (st : Style) (s : SPDX) (d : Nat) (pre post : List Relationships) :
    describesLoop st s d (pre ++ post)
      = ((describesLoop st s d pre).1 ++ (describesLoop st s (describesLoop st s d pre).2 post).1,
         (describesLoop st s (describesLoop st s d pre).2 post).2) := by
  induction pre generalizing d with
  | nil => simp [describesLoop]
  | cons r pre ih =>
    by_cases h : r.RelationshipType = "DESCRIBES"
    · simp [describesLoop, h, ih]
    · simp [describesLoop, h, ih]

theorem dependsLoop_append (st : Style) (s : SPDX) (d : Nat) (pre post : List Relationships) :
    dependsLoop st s d (pre ++ post)
      = ((dependsLoop st s d pre).1 ++ (dependsLoop st s (dependsLoop st s d pre).2 post).1,
         (dependsLoop st s (dependsLoop st s d pre).2 post).2) := by
  induction pre generalizing d with
  | nil => simp [dependsLoop]
  | cons r pre ih =>
    by_cases h : r.RelationshipType = "DEPENDS_ON"
    · simp [dependsLoop, h, ih]
    · simp [dependsLoop, h, ih]

theorem describesLoop_fst (st : Style) (s : SPDX) (label : Relationships → Nat) (d : Nat)
    (rels : List Relationships) :
    (describesLoop st s d rels).1
      = (rels.filter (fun r => r.RelationshipType = "DESCRIBES")).flatMap
          (fun r => getspdxpkg st s (label r) r.RelatedSpdxElement r) := by
  induction rels generalizing d with
  | nil => simp [describesLoop]
  | cons r rels ih =>
    by_cases h : r.RelationshipType = "DESCRIBES"
    · simp [describesLoop, h, ih, getspdxpkg]
    · simp [describesLoop, h, ih]

theorem describesLoop_snd (st : Style) (s : SPDX) (d : Nat) (rels : List Relationships) :
    (describesLoop st s d rels).2
      = d + (rels.filter (fun r => r.RelationshipType = "DESCRIBES")).length := by
  induction rels generalizing d with
  | nil => simp [describesLoop]
  | cons r rels ih =>
    by_cases h : r.RelationshipType = "DESCRIBES"
    · simp [describesLoop, h, ih]; omega
    · simp [describesLoop, h, ih]

/-! ## Theorems on `Load` -/

/-- C1, as stated, fails: `empty.json` is present, is read without error and has zero
length, and `Load` returns no error and the unchanged document, although the parser it is
given would reject the input; the result is the same as for `missing.json`, which does not
exist. -/
theorem Load_empty_resource_reports_no_failure :
    emptyResourceFS "empty.json" = ([], none)
    ∧ Load emptyResourceFS rejectingUnmarshal scenario1 "empty.json" = (scenario1, none)
    ∧ Load emptyResourceFS rejectingUnmarshal scenario1 "missing.json" = (scenario1, none) := by
  refine ⟨by decide, by decide, by decide⟩

/-- C1 (amended): whenever the named resource is read without error and has zero length,
`Load` reports no failure: the guard on the length returns the `nil` error of the read
before `json.Unmarshal` is called, whatever that parser would answer, and the document is
left unchanged. The outcome is the one of the missing-resource case, which returns no
error either. -/
theorem Load_zero_length_resource (readFile : String → List Nat × Option IOError)
    (unmarshal : List Nat → SPDX → SPDX × Option String) (t : SPDX) (filename : String)
    (hread : readFile filename = ([], none)) :
    Load readFile unmarshal t filename = (t, none)
    ∧ ∀ (readMissing : String → List Nat × Option IOError) (file : List Nat) (e : IOError),
        readMissing filename = (file, some e) → e.isNotExist = true →
        Load readMissing unmarshal t filename = Load readFile unmarshal t filename := by
  have h : Load readFile unmarshal t filename = (t, none) := by
    simp [Load, hread]
  refine ⟨h, ?_⟩
  intro readMissing file e hmiss hne
  rw [h]
  simp [Load, hmiss, hne]

/-- Instance for the zero-length resource `empty.json` and a parser that rejects every
input. -/
theorem Load_zero_length_resource_witness :
    emptyResourceFS "empty.json" = ([], none)
    ∧ Load emptyResourceFS rejectingUnmarshal scenario1 "empty.json" = (scenario1, none) :=
  ⟨by decide,
    (Load_zero_length_resource emptyResourceFS rejectingUnmarshal scenario1 "empty.json"
      (by decide)).1⟩

/-! ## Theorems on the containment procedure -/

/-- C2, as stated, fails when two packages share an identifier: the file identifiers are
unique and the first package `P1` lists exactly one file, yet `getspdxpkg` on `P1` prints a
second line that comes from a CONTAINS relationship, and the output changes when the
relationships are removed. -/
theorem getspdxpkg_shared_package_id_consults_relationships :
    (dupPkgDoc.Files.map Files.Spdxid).Nodup
    ∧ (⟨"P1", "pkgA", "1.0", ["F1"]⟩ : Packages) ∈ dupPkgDoc.Packages
    ∧ getspdxpkg Style.plain dupPkgDoc 1 "P1" ⟨"DOC", "P1", "DESCRIBES"⟩
        = ["pkgA | version: 1.0 ----> CONTAINS File 1 ----> a.txt",
           "pkgB | version: 2.0 ----> CONTAINS File 1 ----> b.txt"]
    ∧ getspdxpkg Style.plain { dupPkgDoc with Relationships := [] } 1 "P1"
          ⟨"DOC", "P1", "DESCRIBES"⟩
        = ["pkgA | version: 1.0 ----> CONTAINS File 1 ----> a.txt"] := by
  refine ⟨by decide, by decide, by decide, by decide⟩

/-- C2 (amended): for every package `P` with a non-empty `HasFiles` list, in a document
whose package and file identifiers are unique, `getspdxpkg` on the identifier of `P` prints
exactly one containment line per `HasFiles` entry that resolves to a file, in list order,
naming that file and labelled with the position of the entry; entries that resolve to no
file contribute no line; and the output is the same for every relationship collection. -/
theorem getspdxpkg_hasFiles_lines (st : Style) (s : SPDX) (P : Packages) (d : Nat)
    (rel1 : Relationships) (hP : P ∈ s.Packages) (hH : P.HasFiles ≠ [])
    (hU : (s.Packages.map Packages.Spdxid).Nodup)
    (hF : (s.Files.map Files.Spdxid).Nodup) :
    getspdxpkg st s d P.Spdxid rel1
      = (P.HasFiles.enumFrom 0).filterMap (fun p =>
          (resolveFile s p.2).map
            (fun f => containsLine st (pkgDetail st P) (p.1 + 1) f.FileName))
    ∧ ∀ rels : List Relationships,
        getspdxpkg st { s with Relationships := rels } d P.Spdxid rel1
          = getspdxpkg st s d P.Spdxid rel1 := by
  have key : ∀ s' : SPDX, s'.Packages = s.Packages → s'.Files = s.Files →
      getspdxpkg st s' d P.Spdxid rel1
        = (P.HasFiles.enumFrom 0).filterMap (fun p =>
            (resolveFile s p.2).map
              (fun f => containsLine st (pkgDetail st P) (p.1 + 1) f.FileName)) := by
    intro s' hp hf
    rw [getspdxpkg_eq_containmentLines st s' P d rel1 (hp ▸ hP) (hp ▸ hU) (hf ▸ hF)]
    simp [containmentLines, hH, resolveFile, hf]
  refine ⟨key s rfl rfl, fun rels => ?_⟩
  rw [key { s with Relationships := rels } rfl rfl, key s rfl rfl]

/-- Instance on scenario 1: package `pkgA` with the inline list `[F1]`. -/
theorem getspdxpkg_hasFiles_lines_witness :
    ((⟨"P1", "pkgA", "", ["F1"]⟩ : Packages) ∈ scenario1.Packages
      ∧ (⟨"P1", "pkgA", "", ["F1"]⟩ : Packages).HasFiles ≠ []
      ∧ (scenario1.Packages.map Packages.Spdxid).Nodup
      ∧ (scenario1.Files.map Files.Spdxid).Nodup)
    ∧ getspdxpkg Style.plain scenario1 1 "P1" ⟨"DOC", "P1", "DESCRIBES"⟩
        = ([("F1" : String)].enumFrom 0).filterMap (fun p =>
            (resolveFile scenario1 p.2).map (fun f =>
              containsLine Style.plain (pkgDetail Style.plain ⟨"P1", "pkgA", "", ["F1"]⟩)
                (p.1 + 1) f.FileName)) :=
  ⟨⟨by decide, by decide, by decide, by decide⟩,
    (getspdxpkg_hasFiles_lines Style.plain scenario1 ⟨"P1", "pkgA", "", ["F1"]⟩ 1
      ⟨"DOC", "P1", "DESCRIBES"⟩ (by decide) (by decide) (by decide) (by decide)).1⟩

/-- C4: for the list `["F1", "F2"]` the two encodings print different lines: with the
inline list the files are labelled 1 and 2, with CONTAINS relationships both are
labelled 1, because the counter `f` of the relationship branch is never incremented. -/
theorem containment_encodings_differ_in_label :
    getspdxpkg Style.plain twoFilesInline 1 "P1" ⟨"DOC", "P1", "DESCRIBES"⟩
        = ["pkgA | version: 1.0 ----> CONTAINS File 1 ----> a.txt",
           "pkgA | version: 1.0 ----> CONTAINS File 2 ----> b.txt"]
    ∧ getspdxpkg Style.plain twoFilesByRel 1 "P1" ⟨"DOC", "P1", "DESCRIBES"⟩
        = ["pkgA | version: 1.0 ----> CONTAINS File 1 ----> a.txt",
           "pkgA | version: 1.0 ----> CONTAINS File 1 ----> b.txt"]
    ∧ getspdxpkg Style.plain twoFilesInline 1 "P1" ⟨"DOC", "P1", "DESCRIBES"⟩
        ≠ getspdxpkg Style.plain twoFilesByRel 1 "P1" ⟨"DOC", "P1", "DESCRIBES"⟩ := by
  refine ⟨by decide, by decide, by decide⟩

/-! ## Theorems on the DESCRIBES pass and the summary count -/

/-- C5, as stated, fails: for a described package that resolves but owns no file the
DESCRIBES pass prints nothing at all, so no top-level package line exists; the whole output
of `PrintDigRels` is the count line and the two headers. -/
theorem describesPass_prints_no_package_line :
    (⟨"P1", "pkgA", "1.0", []⟩ : Packages) ∈ noFilesDoc.Packages
    ∧ describesPass Style.plain noFilesDoc = []
    ∧ PrintDigRels Style.plain noFilesDoc
        = ["No. of unique spdxID : 2",
           "===================DESCRIBES======================",
           "===================DEPENDS_ON======================"] := by
  refine ⟨by decide, by decide, by decide⟩

/-- C5 (amended): each DESCRIBES relationship contributes to the DESCRIBES pass exactly the
lines of `getspdxpkg` on its target, placed between the lines of the relationships before
and after it; every such line is a containment line that carries name and version of a
package with the target identifier and names a file of the document, so there is no
separate top-level package line and the running counter is not printed; when package and
file identifiers are unique and the target resolves to `P`, the contribution is one
containment line per resolvable file of `P`, hence no line for a package without one. -/
theorem describes_edge_prints_containment_lines_only (st : Style) (s : SPDX)
    (pre post : List Relationships) (r : Relationships)
    (hs : s.Relationships = pre ++ r :: post) (hr : r.RelationshipType = "DESCRIBES") :
    describesPass st s
        = (describesLoop st s 0 pre).1
          ++ getspdxpkg st s ((describesLoop st s 0 pre).2 + 1) r.RelatedSpdxElement r
          ++ (describesLoop st s ((describesLoop st s 0 pre).2 + 1) post).1
    ∧ (∀ line ∈ getspdxpkg st s ((describesLoop st s 0 pre).2 + 1) r.RelatedSpdxElement r,
        ∃ P ∈ s.Packages, P.Spdxid = r.RelatedSpdxElement ∧
          ∃ f ∈ s.Files, ∃ k, line = containsLine st (pkgDetail st P) k f.FileName)
    ∧ (∀ P ∈ s.Packages, P.Spdxid = r.RelatedSpdxElement →
        (s.Packages.map Packages.Spdxid).Nodup → (s.Files.map Files.Spdxid).Nodup →
        getspdxpkg st s ((describesLoop st s 0 pre).2 + 1) r.RelatedSpdxElement r
          = containmentLines st s P) := by
  refine ⟨?_, ?_, ?_⟩
  · unfold describesPass
    rw [hs, describesLoop_append]
    simp [describesLoop, hr]
  · intro line hl
    exact getspdxpkgLoop_lines st s r.RelatedSpdxElement s.Packages line hl
  · intro P hP hid hU hF
    rw [← hid]
    exact getspdxpkg_eq_containmentLines st s P _ r hP hU hF

/-- Instance on scenario 1: the pass prints the single containment line of `a.txt`. -/
theorem describes_edge_prints_containment_lines_only_witness :
    (scenario1.Relationships = [] ++ (⟨"DOC", "P1", "DESCRIBES"⟩ : Relationships) :: []
      ∧ (⟨"DOC", "P1", "DESCRIBES"⟩ : Relationships).RelationshipType = "DESCRIBES")
    ∧ describesPass Style.plain scenario1
        = [] ++ getspdxpkg Style.plain scenario1 1 "P1" ⟨"DOC", "P1", "DESCRIBES"⟩ ++ []
    ∧ getspdxpkg Style.plain scenario1 1 "P1" ⟨"DOC", "P1", "DESCRIBES"⟩
        = ["pkgA | version:  ----> CONTAINS File 1 ----> a.txt"] :=
  ⟨⟨by decide, by decide⟩,
    (describes_edge_prints_containment_lines_only Style.plain scenario1 [] []
      ⟨"DOC", "P1", "DESCRIBES"⟩ (by decide) (by decide)).1,
    by decide⟩

/-- C6: for the single relationship of scenario 1, whose source is `DOC`, the slice handed
to `removeDuplicateStr` is `["", "DOC"]`, because `make([]string, lenrels)` already holds
`lenrels` empty strings before the appends; the printed count is 2 while the list has one
distinct source identifier. -/
theorem uniqueCount_counts_padding :
    spdxidsOf scenario1.Relationships = ["", "DOC"]
    ∧ uniqueCount scenario1 = 2
    ∧ (scenario1.Relationships.map Relationships.SpdxElementID).dedup.length = 1
    ∧ (PrintDigRels Style.plain scenario1).head? = some "No. of unique spdxID : 2" := by
  refine ⟨by decide, by decide, by decide, by decide⟩

/-! ## Theorems on identifier lookup -/

/-- C7, as stated, fails: with two files `F1` the file lookup prints two lines, with two
packages `P1` the package lookup expands both, and the "depends on" line shows the second
package `pkgB` on both sides. -/
theorem lookups_visit_every_duplicate :
    getspdxfile Style.plain dupIdsDoc 0 "F1" "pkgA | version: 1.0"
        = ["pkgA | version: 1.0 ----> CONTAINS File 1 ----> a.txt",
           "pkgA | version: 1.0 ----> CONTAINS File 2 ----> b.txt"]
    ∧ getspdxpkg Style.plain dupIdsDoc 1 "P1" ⟨"P1", "P1", "DEPENDS_ON"⟩
        = ["pkgA | version: 1.0 ----> CONTAINS File 1 ----> a.txt",
           "pkgA | version: 1.0 ----> CONTAINS File 2 ----> b.txt",
           "pkgB | version: 2.0 ----> CONTAINS File 1 ----> a.txt",
           "pkgB | version: 2.0 ----> CONTAINS File 2 ----> b.txt"]
    ∧ getdependson Style.plain dupIdsDoc 1 ⟨"P1", "P1", "DEPENDS_ON"⟩
        = ["pkgB | version: 2.0 =====> DEPENDS_ON Pkg 1 =====> pkgB | version: 2.0"] := by
  refine ⟨by decide, by decide, by decide⟩

/-- C7 (amended): every lookup of the hierarchy walk scans the whole collection:
`getspdxfile` prints one containment line for every file carrying the identifier, in scan
order and with consecutive labels; `getspdxpkg` expands every package carrying the
identifier, in scan order; and `getdependson` renders each endpoint with name and version
of the last package carrying its identifier. -/
theorem lookups_scan_whole_collection (st : Style) (s : SPDX) (i d : Nat)
    (spdxID detail : String) (rel1 : Relationships) :
    getspdxfile st s i spdxID detail
        = ((s.Files.filter (fun f => f.Spdxid = spdxID)).enumFrom (i + 1)).map
            (fun p => containsLine st detail p.1 p.2.FileName)
    ∧ getspdxpkg st s d spdxID rel1
        = (s.Packages.filter (fun p => p.Spdxid = spdxID)).flatMap (expandPkg st s spdxID)
    ∧ getdependson st s d rel1
        = [dependsLine st (endpointDetail st s rel1.SpdxElementID) d
            (endpointDetail st s rel1.RelatedSpdxElement)] :=
  ⟨getspdxfileLoop_eq_filter st spdxID detail i s.Files,
    getspdxpkgLoop_eq_flatMap st s spdxID s.Packages,
    getdependson_eq st s d rel1⟩

/-- C8, as stated, fails for `getdependson`: in a document without packages both endpoint
lookups find nothing, and a line with two blank endpoints is printed all the same. -/
theorem getdependson_prints_line_for_dangling_endpoints :
    getdependson Style.plain emptyDoc 1 ⟨"A", "B", "DEPENDS_ON"⟩
      = [" =====> DEPENDS_ON Pkg 1 =====> "] := by
  decide

/-- C8 (amended): for an identifier that no file carries `getspdxfile` prints no line, and
for an identifier that no package carries `getspdxpkg` prints no line; `getdependson`
always prints exactly one line, in which an endpoint whose identifier no package carries
is rendered as the empty string. All three are total functions: no lookup fails. -/
theorem absent_identifier_lookups (st : Style) (s : SPDX) (i d : Nat)
    (spdxID detail : String) (rel1 : Relationships) :
    ((∀ f ∈ s.Files, f.Spdxid ≠ spdxID) → getspdxfile st s i spdxID detail = [])
    ∧ ((∀ p ∈ s.Packages, p.Spdxid ≠ spdxID) → getspdxpkg st s d spdxID rel1 = [])
    ∧ (getdependson st s d rel1).length = 1
    ∧ ((∀ p ∈ s.Packages, p.Spdxid ≠ rel1.SpdxElementID) →
        getdependson st s d rel1
          = [dependsLine st "" d (endpointDetail st s rel1.RelatedSpdxElement)])
    ∧ ((∀ p ∈ s.Packages, p.Spdxid ≠ rel1.RelatedSpdxElement) →
        getdependson st s d rel1
          = [dependsLine st (endpointDetail st s rel1.SpdxElementID) d ""]) := by
  refine ⟨?_, ?_, ?_, ?_, ?_⟩
  · intro h
    unfold getspdxfile
    rw [getspdxfileLoop_eq_filter]
    have : s.Files.filter (fun f => f.Spdxid = spdxID) = [] := by
      rw [List.filter_eq_nil_iff]
      intro f hf
      simpa using h f hf
    simp [this]
  · intro h
    exact getspdxpkgLoop_absent st s spdxID s.Packages h
  · simp [getdependson]
  · intro h
    rw [getdependson_eq, endpointDetail_absent st s _ h]
  · intro h
    rw [getdependson_eq, endpointDetail_absent st s _ h]

/-- Instance on scenario 1, where neither `F9` nor `P9` exists. -/
theorem absent_identifier_lookups_witness :
    ((∀ f ∈ scenario1.Files, f.Spdxid ≠ "F9") ∧ (∀ p ∈ scenario1.Packages, p.Spdxid ≠ "P9"))
    ∧ getspdxfile Style.plain scenario1 0 "F9" "pkgA | version: " = []
    ∧ getspdxpkg Style.plain scenario1 1 "P9" ⟨"P1", "P9", "DEPENDS_ON"⟩ = []
    ∧ getdependson Style.plain scenario1 1 ⟨"P1", "P9", "DEPENDS_ON"⟩
        = [dependsLine Style.plain (endpointDetail Style.plain scenario1 "P1") 1 ""] :=
  ⟨⟨by decide, by decide⟩,
    (absent_identifier_lookups Style.plain scenario1 0 1 "F9" "pkgA | version: "
      ⟨"P1", "P9", "DEPENDS_ON"⟩).1 (by decide),
    (absent_identifier_lookups Style.plain scenario1 0 1 "P9" "pkgA | version: "
      ⟨"P1", "P9", "DEPENDS_ON"⟩).2.1 (by decide),
    (absent_identifier_lookups Style.plain scenario1 0 1 "P9" "pkgA | version: "
      ⟨"P1", "P9", "DEPENDS_ON"⟩).2.2.2.2 (by decide)⟩

/-! ## Theorems on the DEPENDS_ON pass -/

/-- C9: for every DEPENDS_ON relationship whose target identifier matches no package, the
dependency pass prints exactly one "depends on" line for it, labelled with the running
counter, showing name and version of the source package (or the empty string when the source
matches no package either) and the empty string for the target; the following `getspdxpkg`
call on the target prints nothing; and the pass continues with the next relationship. -/
theorem dependsPass_dangling_target (st : Style) (s : SPDX) (pre post : List Relationships)
    (r : Relationships) (hs : s.Relationships = pre ++ r :: post)
    (hr : r.RelationshipType = "DEPENDS_ON")
    (hT : ∀ p ∈ s.Packages, p.Spdxid ≠ r.RelatedSpdxElement) :
    getdependson st s ((dependsLoop st s 0 pre).2 + 1) r
        = [dependsLine st (endpointDetail st s r.SpdxElementID)
            ((dependsLoop st s 0 pre).2 + 1) ""]
    ∧ getspdxpkg st s ((dependsLoop st s 0 pre).2 + 1) r.RelatedSpdxElement r = []
    ∧ dependsPass st s
        = (dependsLoop st s 0 pre).1
          ++ [dependsLine st (endpointDetail st s r.SpdxElementID)
                ((dependsLoop st s 0 pre).2 + 1) ""]
          ++ (dependsLoop st s ((dependsLoop st s 0 pre).2 + 1) post).1 := by
  have h1 : getdependson st s ((dependsLoop st s 0 pre).2 + 1) r
      = [dependsLine st (endpointDetail st s r.SpdxElementID)
          ((dependsLoop st s 0 pre).2 + 1) ""] := by
    rw [getdependson_eq, endpointDetail_absent st s _ hT]
  have h2 : getspdxpkg st s ((dependsLoop st s 0 pre).2 + 1) r.RelatedSpdxElement r = [] :=
    getspdxpkgLoop_absent st s _ s.Packages hT
  refine ⟨h1, h2, ?_⟩
  unfold dependsPass
  rw [hs, dependsLoop_append]
  simp only [dependsLoop, hr, if_true, h1, h2]
  simp

/-- Instance on a document whose first relationship points to `P9`, which is no package; the
second relationship is still processed. -/
theorem dependsPass_dangling_target_witness :
    (danglingDepDoc.Relationships
        = [] ++ (⟨"P1", "P9", "DEPENDS_ON"⟩ : Relationships) :: [⟨"P1", "P2", "DEPENDS_ON"⟩]
      ∧ (⟨"P1", "P9", "DEPENDS_ON"⟩ : Relationships).RelationshipType = "DEPENDS_ON"
      ∧ ∀ p ∈ danglingDepDoc.Packages, p.Spdxid ≠ "P9")
    ∧ dependsPass Style.plain danglingDepDoc
        = [] ++ [dependsLine Style.plain (endpointDetail Style.plain danglingDepDoc "P1") 1 ""]
          ++ (dependsLoop Style.plain danglingDepDoc 1 [⟨"P1", "P2", "DEPENDS_ON"⟩]).1
    ∧ dependsPass Style.plain danglingDepDoc
        = ["pkgA | version: 1.0 =====> DEPENDS_ON Pkg 1 =====> ",
           "pkgA | version: 1.0 =====> DEPENDS_ON Pkg 2 =====> pkgB | version: 2.0",
           "pkgB | version: 2.0 ----> CONTAINS File 1 ----> a.txt"] :=
  ⟨⟨by decide, by decide, by decide⟩,
    (dependsPass_dangling_target Style.plain danglingDepDoc [] [⟨"P1", "P2", "DEPENDS_ON"⟩]
      ⟨"P1", "P9", "DEPENDS_ON"⟩ (by decide) (by decide) (by decide)).2.2,
    by decide⟩

/-- C10: the lines of the DESCRIBES pass are the concatenation, in relationship order, of the
lines of `getspdxpkg` on the target of each DESCRIBES relationship (whatever label is
passed); the pass calls `getspdxpkg` as many times as there are DESCRIBES relationships; and
when the `k` DESCRIBES relationships all have the target `t`, the pass prints the lines of
`getspdxpkg` on `t` exactly `k` times. Unique package identifiers are not needed. -/
theorem describesPass_concat_containment (st : Style) (s : SPDX)
    (label : Relationships → Nat) :
    describesPass st s
        = (s.Relationships.filter (fun r => r.RelationshipType = "DESCRIBES")).flatMap
            (fun r => getspdxpkg st s (label r) r.RelatedSpdxElement r)
    ∧ (describesLoop st s 0 s.Relationships).2
        = (s.Relationships.filter (fun r => r.RelationshipType = "DESCRIBES")).length
    ∧ ∀ (t : String) (rel1 : Relationships),
        (∀ r ∈ s.Relationships, r.RelationshipType = "DESCRIBES" → r.RelatedSpdxElement = t) →
        describesPass st s
          = (List.replicate
              (s.Relationships.filter (fun r => r.RelationshipType = "DESCRIBES")).length
              (getspdxpkg st s 0 t rel1)).flatten := by
  refine ⟨describesLoop_fst st s label 0 s.Relationships, ?_, ?_⟩
  · simp [describesLoop_snd]
  · intro t rel1 h
    unfold describesPass
    rw [describesLoop_fst st s (fun _ => 0) 0 s.Relationships]
    have hmem : ∀ r ∈ s.Relationships.filter (fun r => r.RelationshipType = "DESCRIBES"),
        r.RelatedSpdxElement = t := by
      intro r hr
      have := List.mem_filter.mp hr
      exact h r this.1 (by simpa using this.2)
    generalize s.Relationships.filter (fun r => r.RelationshipType = "DESCRIBES") = l at hmem
    induction l with
    | nil => simp
    | cons a l ih =>
      have ha : a.RelatedSpdxElement = t := hmem a (List.mem_cons_self _ _)
      have hl := ih (fun r hr => hmem r (List.mem_cons_of_mem _ hr))
      simp only [List.flatMap_cons, List.length_cons, List.replicate_succ, List.flatten_cons, hl]
      simp [getspdxpkg, ha]

/-- Instance with two DESCRIBES relationships to `P1`: the containment line of `pkgA` is
printed twice. -/
theorem describesPass_concat_containment_witness :
    (∀ r ∈ describedTwiceDoc.Relationships,
        r.RelationshipType = "DESCRIBES" → r.RelatedSpdxElement = "P1")
    ∧ describesPass Style.plain describedTwiceDoc
        = (List.replicate
            (describedTwiceDoc.Relationships.filter
              (fun r => r.RelationshipType = "DESCRIBES")).length
            (getspdxpkg Style.plain describedTwiceDoc 0 "P1" ⟨"DOC", "P1", "DESCRIBES"⟩)).flatten
    ∧ describesPass Style.plain describedTwiceDoc
        = ["pkgA | version:  ----> CONTAINS File 1 ----> a.txt",
           "pkgA | version:  ----> CONTAINS File 1 ----> a.txt"] :=
  ⟨by decide,
    (describesPass_concat_containment Style.plain describedTwiceDoc (fun _ => 0)).2.2 "P1"
      ⟨"DOC", "P1", "DESCRIBES"⟩ (by decide),
    by decide⟩


/-! ## Lemmas on `removeDuplicateStr` -/

theorem removeDuplicateStrLoop_acc (allKeys list rest : List String) :
    removeDuplicateStrLoop allKeys list rest
      = list ++ removeDuplicateStrLoop allKeys [] rest := by
  induction rest generalizing allKeys list with
  | nil => simp [removeDuplicateStrLoop]
  | cons x rest ih =>
    by_cases h : x ∈ allKeys
    · simp only [removeDuplicateStrLoop, h, if_true]
      exact ih allKeys list
    · simp only [removeDuplicateStrLoop, h, if_false]
      rw [ih (x :: allKeys) (list ++ [x]), ih (x :: allKeys) ([] ++ [x])]
      simp

theorem removeDuplicateStrLoop_cons (allKeys : List String) (x : String) (rest : List String) :
    removeDuplicateStrLoop allKeys [] (x :: rest)
      = if x ∈ allKeys then removeDuplicateStrLoop allKeys [] rest
        else x :: removeDuplicateStrLoop (x :: allKeys) [] rest := by
  by_cases h : x ∈ allKeys
  · simp [removeDuplicateStrLoop, h]
  · simp only [removeDuplicateStrLoop, h, if_false]
    rw [removeDuplicateStrLoop_acc]
    simp

theorem mem_removeDuplicateStrLoop (allKeys rest : List String) (y : String) :
    y ∈ removeDuplicateStrLoop allKeys [] rest ↔ y ∈ rest ∧ y ∉ allKeys := by
  induction rest generalizing allKeys with
  | nil => simp [removeDuplicateStrLoop]
  | cons x rest ih =>
    rw [removeDuplicateStrLoop_cons]
    by_cases h : x ∈ allKeys
    · simp only [h, if_true, ih, List.mem_cons]
      constructor
      · rintro ⟨h1, h2⟩
        exact ⟨Or.inr h1, h2⟩
      · rintro ⟨h1 | h1, h2⟩
        · exact absurd (h1 ▸ h) h2
        · exact ⟨h1, h2⟩
    · simp only [h, if_false, List.mem_cons, ih]
      constructor
      · rintro (h1 | ⟨h1, h2⟩)
        · exact ⟨Or.inl h1, h1 ▸ h⟩
        · exact ⟨Or.inr h1, fun hy => h2 (Or.inr hy)⟩
      · rintro ⟨h1 | h1, h2⟩
        · exact Or.inl h1
        · by_cases hyx : y = x
          · exact Or.inl hyx
          · exact Or.inr ⟨h1, fun hy => hy.elim hyx h2⟩

theorem nodup_removeDuplicateStrLoop (allKeys rest : List String) :
    (removeDuplicateStrLoop allKeys [] rest).Nodup := by
  induction rest generalizing allKeys with
  | nil => simp [removeDuplicateStrLoop]
  | cons x rest ih =>
    rw [removeDuplicateStrLoop_cons]
    by_cases h : x ∈ allKeys
    · simp only [h, if_true]
      exact ih allKeys
    · simp only [h, if_false, List.nodup_cons]
      refine ⟨?_, ih (x :: allKeys)⟩
      rw [mem_removeDuplicateStrLoop]
      simp

theorem removeDuplicateStrLoop_of_nodup (allKeys rest : List String) (hn : rest.Nodup)
    (hd : ∀ y ∈ rest, y ∉ allKeys) :
    removeDuplicateStrLoop allKeys [] rest = rest := by
  induction rest generalizing allKeys with
  | nil => simp [removeDuplicateStrLoop]
  | cons x rest ih =>
    rw [removeDuplicateStrLoop_cons]
    have hx : x ∉ allKeys := hd x (List.mem_cons_self _ _)
    have hn' := List.nodup_cons.mp hn
    simp only [hx, if_false]
    rw [ih (x :: allKeys) hn'.2]
    intro y hy hmem
    rcases List.mem_cons.mp hmem with rfl | hmem
    · exact hn'.1 hy
    · exact hd y (List.mem_cons_of_mem _ hy) hmem

theorem removeDuplicateStrLoop_eq_filter (allKeys rest : List String) (n : Nat) :
    removeDuplicateStrLoop allKeys [] rest
      = ((rest.enumFrom n).filter
          (fun p => p.2 ∉ allKeys ∧ p.2 ∉ rest.take (p.1 - n))).map Prod.snd := by
  induction rest generalizing allKeys n with
  | nil => simp [removeDuplicateStrLoop]
  | cons x rest ih =>
    rw [removeDuplicateStrLoop_cons]
    have key : ∀ seen : List String, (x ∈ seen ∨ seen = x :: allKeys) →
        (∀ y, y ∉ seen ↔ (y ∉ allKeys ∧ y ≠ x)) →
        (rest.enumFrom (n + 1)).filter
            (fun p => decide (p.2 ∉ allKeys ∧ p.2 ∉ (x :: rest).take (p.1 - n)))
          = (rest.enumFrom (n + 1)).filter
            (fun p => decide (p.2 ∉ seen ∧ p.2 ∉ rest.take (p.1 - (n + 1)))) := by
      intro seen _ hseen
      apply List.filter_congr
      intro p hp
      have hle : n + 1 ≤ p.1 := List.le_fst_of_mem_enumFrom hp
      have hsub : p.1 - n = (p.1 - (n + 1)) + 1 := by omega
      rw [hsub, List.take_succ_cons]
      simp only [List.mem_cons, not_or, decide_eq_decide]
      rw [hseen p.2]
      tauto
    by_cases h : x ∈ allKeys
    · simp only [h, if_true, List.enumFrom_cons, List.filter_cons]
      simp only [Nat.sub_self, List.take_zero, List.not_mem_nil, not_false_eq_true, and_true,
        h, not_true_eq_false, decide_False, Bool.false_eq_true, if_false]
      rw [key allKeys (Or.inl h) (fun y => ⟨fun hy => ⟨hy, fun e => hy (e ▸ h)⟩, fun hy => hy.1⟩)]
      exact ih allKeys (n + 1)
    · simp only [h, if_false, List.enumFrom_cons, List.filter_cons]
      simp only [Nat.sub_self, List.take_zero, List.not_mem_nil, not_false_eq_true, and_true,
        h, decide_True, if_true, List.map_cons]
      rw [key (x :: allKeys) (Or.inr rfl) (fun y => by simp [List.mem_cons]; tauto)]
      rw [ih (x :: allKeys) (n + 1)]

/-! ## Theorems on `removeDuplicateStr` and on `Load` of a missing resource -/

/-- C12: `removeDuplicateStr` returns its argument with every non-first occurrence deleted:
the result has no repeated element, has exactly the elements of the argument, keeps the
entry at position `i` exactly when it does not occur before position `i`, and applying the
function twice gives the same as applying it once. -/
theorem removeDuplicateStr_first_occurrences (xs : List String) :
    (removeDuplicateStr xs).Nodup
    ∧ (∀ x, x ∈ removeDuplicateStr xs ↔ x ∈ xs)
    ∧ removeDuplicateStr xs = deleteNonFirst xs
    ∧ removeDuplicateStr (removeDuplicateStr xs) = removeDuplicateStr xs := by
  refine ⟨nodup_removeDuplicateStrLoop [] xs, ?_, ?_, ?_⟩
  · intro x
    unfold removeDuplicateStr
    rw [mem_removeDuplicateStrLoop]
    simp
  · unfold removeDuplicateStr deleteNonFirst
    rw [removeDuplicateStrLoop_eq_filter [] xs 0]
    simp
  · unfold removeDuplicateStr
    exact removeDuplicateStrLoop_of_nodup [] _ (nodup_removeDuplicateStrLoop [] xs)
      (fun y _ => List.not_mem_nil y)

/-- C13: when the read fails with an error that is `os.ErrNotExist`, `Load` returns no error
and the document it was called on, whatever that document is; called on a freshly created
document, it leaves `Packages`, `Files` and `Relationships` empty. -/
theorem Load_missing_resource (readFile : String → List Nat × Option IOError)
    (unmarshal : List Nat → SPDX → SPDX × Option String) (t : SPDX) (filename : String)
    (file : List Nat) (e : IOError) (hread : readFile filename = (file, some e))
    (hne : e.isNotExist = true) :
    Load readFile unmarshal t filename = (t, none)
    ∧ (Load readFile unmarshal emptyDoc filename).2 = none
    ∧ (Load readFile unmarshal emptyDoc filename).1.Packages = []
    ∧ (Load readFile unmarshal emptyDoc filename).1.Files = []
    ∧ (Load readFile unmarshal emptyDoc filename).1.Relationships = [] := by
  have h : ∀ t : SPDX, Load readFile unmarshal t filename = (t, none) := by
    intro t
    simp [Load, hread, hne]
  refine ⟨h t, ?_, ?_, ?_, ?_⟩ <;> rw [h emptyDoc] <;> rfl

/-- Instance for the resource `missing.json` of a file system that does not hold it, on
scenario 1 as the document. -/
theorem Load_missing_resource_witness :
    (emptyResourceFS "missing.json"
        = ([], some ⟨"open missing.json: no such file or directory", true⟩)
      ∧ (⟨"open missing.json: no such file or directory", true⟩ : IOError).isNotExist = true)
    ∧ Load emptyResourceFS (fun _ t => (t, some "unused")) scenario1 "missing.json"
        = (scenario1, none) :=
  ⟨⟨by decide, rfl⟩,
    (Load_missing_resource emptyResourceFS (fun _ t => (t, some "unused")) scenario1
      "missing.json" [] ⟨"open missing.json: no such file or directory", true⟩
      (by decide) rfl).1⟩

/-! ## Lemmas on what the walk reads of a document -/

theorem hasFilesLoop_congr (st : Style) (s s' : SPDX) (hF : s'.Files = s.Files)
    (detail : String) (i : Nat) (ids : List String) :
    hasFilesLoop st s' detail i ids = hasFilesLoop st s detail i ids := by
  induction ids generalizing i with
  | nil => simp [hasFilesLoop]
  | cons a ids ih => simp [hasFilesLoop, getspdxfile, hF, ih]

theorem containsLoop_congr (st : Style) (s s' : SPDX) (hF : s'.Files = s.Files)
    (spdxID detail : String) (f : Nat) (rels : List Relationships) :
    containsLoop st s' spdxID detail f rels = containsLoop st s spdxID detail f rels := by
  induction rels with
  | nil => simp [containsLoop]
  | cons r rels ih => simp [containsLoop, getspdxfile, hF, ih]

theorem containsLoop_append (st : Style) (s : SPDX) (spdxID detail : String) (f : Nat)
    (a b : List Relationships) :
    containsLoop st s spdxID detail f (a ++ b)
      = containsLoop st s spdxID detail f a ++ containsLoop st s spdxID detail f b := by
  induction a with
  | nil => simp [containsLoop]
  | cons r a ih => simp [containsLoop, ih]

theorem getspdxpkgLoop_congr (st : Style) (s s' : SPDX) (hF : s'.Files = s.Files)
    (hR : ∀ spdxID detail f,
      containsLoop st s spdxID detail f s'.Relationships
        = containsLoop st s spdxID detail f s.Relationships)
    (spdxID : String) (pkgs : List Packages) :
    getspdxpkgLoop st s' spdxID pkgs = getspdxpkgLoop st s spdxID pkgs := by
  induction pkgs with
  | nil => simp [getspdxpkgLoop]
  | cons pkg pkgs ih =>
    have he : expandPkg st s' spdxID pkg = expandPkg st s spdxID pkg := by
      unfold expandPkg
      simp only [hasFilesLoop_congr st s s' hF, containsLoop_congr st s s' hF, hR]
    simp [getspdxpkgLoop, he, ih]

theorem describesLoop_congr (st : Style) (s s' : SPDX) (hP : s'.Packages = s.Packages)
    (hF : s'.Files = s.Files)
    (hR : ∀ spdxID detail f,
      containsLoop st s spdxID detail f s'.Relationships
        = containsLoop st s spdxID detail f s.Relationships)
    (d : Nat) (rels : List Relationships) :
    describesLoop st s' d rels = describesLoop st s d rels := by
  induction rels generalizing d with
  | nil => simp [describesLoop]
  | cons r rels ih =>
    simp [describesLoop, getspdxpkg, hP, getspdxpkgLoop_congr st s s' hF hR, ih]

theorem dependsLoop_congr (st : Style) (s s' : SPDX) (hP : s'.Packages = s.Packages)
    (hF : s'.Files = s.Files)
    (hR : ∀ spdxID detail f,
      containsLoop st s spdxID detail f s'.Relationships
        = containsLoop st s spdxID detail f s.Relationships)
    (d : Nat) (rels : List Relationships) :
    dependsLoop st s' d rels = dependsLoop st s d rels := by
  induction rels generalizing d with
  | nil => simp [dependsLoop]
  | cons r rels ih =>
    simp [dependsLoop, getspdxpkg, getdependson, hP, getspdxpkgLoop_congr st s s' hF hR, ih]

theorem describesLoop_skip (st : Style) (s : SPDX) (d : Nat) (pre post : List Relationships)
    (r : Relationships) (h : r.RelationshipType ≠ "DESCRIBES") :
    describesLoop st s d (pre ++ r :: post) = describesLoop st s d (pre ++ post) := by
  rw [describesLoop_append, describesLoop_append]
  simp [describesLoop, h]

theorem dependsLoop_skip (st : Style) (s : SPDX) (d : Nat) (pre post : List Relationships)
    (r : Relationships) (h : r.RelationshipType ≠ "DEPENDS_ON") :
    dependsLoop st s d (pre ++ r :: post) = dependsLoop st s d (pre ++ post) := by
  rw [dependsLoop_append, dependsLoop_append]
  simp [dependsLoop, h]

theorem dependsLoop_fst (st : Style) (s : SPDX) (d : Nat) (rels : List Relationships) :
    (dependsLoop st s d rels).1
      = ((rels.filter (fun r => r.RelationshipType = "DEPENDS_ON")).enumFrom (d + 1)).flatMap
          (fun p => getdependson st s p.1 p.2
            ++ getspdxpkg st s p.1 p.2.RelatedSpdxElement p.2) := by
  induction rels generalizing d with
  | nil => simp [dependsLoop]
  | cons r rels ih =>
    by_cases h : r.RelationshipType = "DEPENDS_ON"
    · simp [dependsLoop, h, ih]
    · simp [dependsLoop, h, ih]

theorem endpointDetail_of_nodup (st : Style) (s : SPDX) (P : Packages) (hP : P ∈ s.Packages)
    (hU : (s.Packages.map Packages.Spdxid).Nodup) :
    endpointDetail st s P.Spdxid = depDetail st P := by
  unfold endpointDetail lastPackage
  have hU' : (s.Packages.reverse.map Packages.Spdxid).Nodup := by
    rw [List.map_reverse]
    exact List.nodup_reverse.mpr hU
  rw [find_eq_some_of_nodup_mem Packages.Spdxid P s.Packages.reverse hU'
    (List.mem_reverse.mpr hP)]

/-! ## Theorems on unrecognized relationships, one-hop expansion and output order -/

/-- C14: for every document and every relationship `r` whose type is none of DESCRIBES,
CONTAINS and DEPENDS_ON, the lines of the DESCRIBES pass and of the DEPENDS_ON pass are the
same with `r` inserted at any position of the relationship list as without it; all of
`PrintDigRels` after its count line is the same. The functions are total: nothing fails. -/
theorem unrecognized_relationship_ignored (st : Style) (pkgs : List Packages)
    (files : List Files) (pre post : List Relationships) (r : Relationships)
    (h1 : r.RelationshipType ≠ "DESCRIBES") (h2 : r.RelationshipType ≠ "CONTAINS")
    (h3 : r.RelationshipType ≠ "DEPENDS_ON") :
    describesPass st { Packages := pkgs, Files := files, Relationships := pre ++ r :: post }
        = describesPass st { Packages := pkgs, Files := files, Relationships := pre ++ post }
    ∧ dependsPass st { Packages := pkgs, Files := files, Relationships := pre ++ r :: post }
        = dependsPass st { Packages := pkgs, Files := files, Relationships := pre ++ post }
    ∧ (PrintDigRels st
          { Packages := pkgs, Files := files, Relationships := pre ++ r :: post }).tail
        = (PrintDigRels st
          { Packages := pkgs, Files := files, Relationships := pre ++ post }).tail := by
  have hR : ∀ spdxID detail f,
      containsLoop st { Packages := pkgs, Files := files, Relationships := pre ++ post }
          spdxID detail f (pre ++ r :: post)
        = containsLoop st { Packages := pkgs, Files := files, Relationships := pre ++ post }
          spdxID detail f (pre ++ post) := by
    intro spdxID detail f
    rw [containsLoop_append, containsLoop_append]
    simp [containsLoop, h2]
  have hd : describesPass st
        { Packages := pkgs, Files := files, Relationships := pre ++ r :: post }
      = describesPass st { Packages := pkgs, Files := files, Relationships := pre ++ post } := by
    unfold describesPass
    rw [describesLoop_congr st { Packages := pkgs, Files := files, Relationships := pre ++ post }
      { Packages := pkgs, Files := files, Relationships := pre ++ r :: post } rfl rfl hR]
    exact congrArg Prod.fst (describesLoop_skip st _ 0 pre post r h1)
  have hp : dependsPass st
        { Packages := pkgs, Files := files, Relationships := pre ++ r :: post }
      = dependsPass st { Packages := pkgs, Files := files, Relationships := pre ++ post } := by
    unfold dependsPass
    rw [dependsLoop_congr st { Packages := pkgs, Files := files, Relationships := pre ++ post }
      { Packages := pkgs, Files := files, Relationships := pre ++ r :: post } rfl rfl hR]
    exact congrArg Prod.fst (dependsLoop_skip st _ 0 pre post r h3)
  refine ⟨hd, hp, ?_⟩
  simp [PrintDigRels, hd, hp]

/-- Instance on scenario 2 with a relationship of type `GENERATED_FROM` placed between its two
relationships. -/
theorem unrecognized_relationship_ignored_witness :
    ((⟨"P1", "F1", "GENERATED_FROM"⟩ : Relationships).RelationshipType ≠ "DESCRIBES"
      ∧ (⟨"P1", "F1", "GENERATED_FROM"⟩ : Relationships).RelationshipType ≠ "CONTAINS"
      ∧ (⟨"P1", "F1", "GENERATED_FROM"⟩ : Relationships).RelationshipType ≠ "DEPENDS_ON")
    ∧ describesPass Style.plain
        { Packages := scenario2.Packages, Files := scenario2.Files,
          Relationships := [⟨"DOC", "P1", "DESCRIBES"⟩]
            ++ ⟨"P1", "F1", "GENERATED_FROM"⟩ :: [⟨"P1", "F1", "CONTAINS"⟩] }
        = describesPass Style.plain
        { Packages := scenario2.Packages, Files := scenario2.Files,
          Relationships := [⟨"DOC", "P1", "DESCRIBES"⟩] ++ [⟨"P1", "F1", "CONTAINS"⟩] } :=
  ⟨⟨by decide, by decide, by decide⟩,
    (unrecognized_relationship_ignored Style.plain scenario2.Packages scenario2.Files
      [⟨"DOC", "P1", "DESCRIBES"⟩] [⟨"P1", "F1", "CONTAINS"⟩] ⟨"P1", "F1", "GENERATED_FROM"⟩
      (by decide) (by decide) (by decide)).1⟩

/-- C15: `PrintDigRels` prints, in this order, the count line, the DESCRIBES header, the
lines of `getspdxpkg` on the target of each DESCRIBES relationship in relationship order,
the DEPENDS_ON header, and for the `i`-th DEPENDS_ON relationship in relationship order,
`i` counted from 1, one "depends on" line labelled `i` that shows the source and the target
endpoint, followed at once by the lines of `getspdxpkg` on the target; an endpoint is
shown with name and version of the package carrying its identifier when package
identifiers are unique. A package that is the target of a DESCRIBES and of a DEPENDS_ON
relationship is therefore expanded once in each pass. -/
theorem PrintDigRels_order (st : Style) (s : SPDX) :
    PrintDigRels st s
        = [countLine (uniqueCount s)] ++ [describesHeader st]
          ++ (s.Relationships.filter (fun r => r.RelationshipType = "DESCRIBES")).flatMap
              (fun r => getspdxpkg st s 0 r.RelatedSpdxElement r)
          ++ [dependsHeader st]
          ++ ((s.Relationships.filter
                (fun r => r.RelationshipType = "DEPENDS_ON")).enumFrom 1).flatMap
              (fun p =>
                [dependsLine st (endpointDetail st s p.2.SpdxElementID) p.1
                  (endpointDetail st s p.2.RelatedSpdxElement)]
                ++ getspdxpkg st s p.1 p.2.RelatedSpdxElement p.2)
    ∧ (∀ P ∈ s.Packages, (s.Packages.map Packages.Spdxid).Nodup →
        endpointDetail st s P.Spdxid = depDetail st P) := by
  refine ⟨?_, fun P hP hU => endpointDetail_of_nodup st s P hP hU⟩
  unfold PrintDigRels describesPass dependsPass
  rw [describesLoop_fst st s (fun _ => 0) 0 s.Relationships, dependsLoop_fst]
  simp only [getdependson_eq]

/-- Instance on a document in which `pkgA` is described and is also a dependency of `pkgB`:
its containment line is printed once in each pass. -/
theorem PrintDigRels_order_witness :
    ((⟨"P2", "pkgB", "2.0", []⟩ : Packages) ∈ bothPassesDoc.Packages
      ∧ (bothPassesDoc.Packages.map Packages.Spdxid).Nodup)
    ∧ endpointDetail Style.plain bothPassesDoc "P2" = depDetail Style.plain ⟨"P2", "pkgB", "2.0", []⟩
    ∧ PrintDigRels Style.plain bothPassesDoc
        = ["No. of unique spdxID : 3",
           "===================DESCRIBES======================",
           "pkgA | version: 1.0 ----> CONTAINS File 1 ----> a.txt",
           "===================DEPENDS_ON======================",
           "pkgB | version: 2.0 =====> DEPENDS_ON Pkg 1 =====> pkgA | version: 1.0",
           "pkgA | version: 1.0 ----> CONTAINS File 1 ----> a.txt"] :=
  ⟨⟨by decide, by decide⟩,
    (PrintDigRels_order Style.plain bothPassesDoc).2 ⟨"P2", "pkgB", "2.0", []⟩
      (by decide) (by decide),
    by decide⟩

end Sq
